import Mathlib

/-!
# BK-390A serial frame decoder: read, decode and format

Shallow embedding of the serial read loop (lines 591-604) and of the decode/format
part (lines 608-797) of `wWinMain` in `src/win-bk390a.cpp`, followed by theorems
about them.

Machine integers: a frame byte is a `uint8_t`, modelled as `Fin 256`; all
arithmetic on bytes is done in `Nat` after integer promotion, as in C.  The
variable `dps` is a `uint8_t` that is only ever assigned 0..3; it is a `Nat` here.
The wide-character buffers `prefix`, `units`, `mmmode`, `linetmp`, `line1`
and `line2` are modelled as `String`.  The source variable `prefix` is named
`pfx` here.
-/

namespace BK390A

/-! ## Constants (lines 50-87) -/

def BYTE_RANGE : Nat := 0
def BYTE_DIGIT_3 : Nat := 1
def BYTE_DIGIT_2 : Nat := 2
def BYTE_DIGIT_1 : Nat := 3
def BYTE_DIGIT_0 : Nat := 4
def BYTE_FUNCTION : Nat := 5
def BYTE_STATUS : Nat := 6
def BYTE_OPTION_1 : Nat := 7
def BYTE_OPTION_2 : Nat := 8

def FUNCTION_VOLTAGE : Nat := 0b00111011
def FUNCTION_CURRENT_UA : Nat := 0b00111101
def FUNCTION_CURRENT_MA : Nat := 0b00111001
def FUNCTION_CURRENT_A : Nat := 0b00111111
def FUNCTION_OHMS : Nat := 0b00110011
def FUNCTION_CONTINUITY : Nat := 0b00110101
def FUNCTION_DIODE : Nat := 0b00110001
def FUNCTION_FQ_RPM : Nat := 0b00110010
def FUNCTION_CAPACITANCE : Nat := 0b00110110
def FUNCTION_TEMPERATURE : Nat := 0b00110100
def FUNCTION_ADP0 : Nat := 0b00111110
def FUNCTION_ADP1 : Nat := 0b00111100
def FUNCTION_ADP2 : Nat := 0b00111000
def FUNCTION_ADP3 : Nat := 0b00111010

def STATUS_OL : Nat := 0x01
def STATUS_BATT : Nat := 0x02
def STATUS_SIGN : Nat := 0x04
def STATUS_JUDGE : Nat := 0x08

/-! ## Data model -/

/-- One `uint8_t` of the serial data packet `d`. -/
abbrev Byte := Fin 256

/-- The nine payload bytes `d[0] .. d[8]` of one frame, in wire order. -/
structure Frame where
  range : Byte
  digit3 : Byte
  digit2 : Byte
  digit1 : Byte
  digit0 : Byte
  function : Byte
  status : Byte
  option1 : Byte
  option2 : Byte
  deriving DecidableEq

/-- The C expression `d[i]` for `i` in `0..8`, promoted to an integer. -/
def Frame.d (f : Frame) (i : Nat) : Nat :=
  match i with
  | 0 => f.range.val
  | 1 => f.digit3.val
  | 2 => f.digit2.val
  | 3 => f.digit1.val
  | 4 => f.digit0.val
  | 5 => f.function.val
  | 6 => f.status.val
  | 7 => f.option1.val
  | 8 => f.option2.val
  | _ => 0

/-- The variables written by the decode switch: `dps`, `prefix`, `units`, `mmmode`. -/
structure Decode where
  dps : Nat
  pfx : String
  units : String
  mmmode : String
  deriving DecidableEq

/-- What survives from one pass of the message loop to the next: the local `dps`
(declared outside the loop, line 346) and the global display buffers `line1`, `line2`. -/
structure Display where
  dps : Nat
  line1 : String
  line2 : String
  deriving DecidableEq

/-- Program start: `uint8_t dps = 0`, and the zero-initialised globals `line1`, `line2`. -/
def Display.init : Display := { dps := 0, line1 := "", line2 := "" }

/-! ## The decode switch (lines 619-751) -/

/-- Lines 619-751.  `dps` is the value the variable holds on entry (it is not reset);
`prefix`, `units` and `mmmode` are reset to `" "`, `""`, `""` before the switch.  A `switch`
without a matching `case` (and without `default`) changes nothing. -/
def decodeSwitch (dps : Nat) (f : Frame) : Decode :=
  let s : Decode := { dps := dps, pfx := " ", units := "", mmmode := "" }
  if f.d BYTE_FUNCTION = FUNCTION_VOLTAGE then
    let s := { s with units := "V", mmmode := "Volts" }
    match f.d BYTE_RANGE &&& 0x0F with
    | 0 => { s with dps := 1, pfx := "m" }
    | 1 => { s with dps := 3 }
    | 2 => { s with dps := 2 }
    | 3 => { s with dps := 1 }
    | 4 => { s with dps := 0 }
    | _ => s
  else if f.d BYTE_FUNCTION = FUNCTION_CURRENT_UA then
    let s := { s with units := "A", pfx := "m", mmmode := "Amps" }
    match f.d BYTE_RANGE &&& 0x0F with
    | 0 => { s with dps := 2 }
    | 1 => { s with dps := 1 }
    | _ => s
  else if f.d BYTE_FUNCTION = FUNCTION_CURRENT_MA then
    let s := { s with units := "A", pfx := "\u00B5", mmmode := "Amps" }
    match f.d BYTE_RANGE &&& 0x0F with
    | 0 => { s with dps := 1 }
    | 1 => { s with dps := 0 }
    | _ => s
  else if f.d BYTE_FUNCTION = FUNCTION_CURRENT_A then
    { s with units := "A", mmmode := "Amps" }
  else if f.d BYTE_FUNCTION = FUNCTION_OHMS then
    let s := { s with mmmode := "Resistance", units := "\u2126" }
    match f.d BYTE_RANGE &&& 0x0F with
    | 0 => { s with dps := 1 }
    | 1 => { s with dps := 3, pfx := "k" }
    | 2 => { s with dps := 2, pfx := "k" }
    | 3 => { s with dps := 1, pfx := "k" }
    | 4 => { s with dps := 3, pfx := "M" }
    | 5 => { s with dps := 2, pfx := "M" }
    | _ => s
  else if f.d BYTE_FUNCTION = FUNCTION_CONTINUITY then
    { s with mmmode := "Continuity", units := "\u2126", dps := 1 }
  else if f.d BYTE_FUNCTION = FUNCTION_DIODE then
    { s with mmmode := "DIODE", units := "V", dps := 3 }
  else if f.d BYTE_FUNCTION = FUNCTION_FQ_RPM then
    if f.d BYTE_STATUS &&& STATUS_JUDGE ≠ 0 then
      let s := { s with mmmode := "Frequency", units := "Hz" }
      match f.d BYTE_RANGE &&& 0x0F with
      | 0 => { s with dps := 3, pfx := "k" }
      | 1 => { s with dps := 2, pfx := "k" }
      | 2 => { s with dps := 1, pfx := "k" }
      | 3 => { s with dps := 3, pfx := "M" }
      | 4 => { s with dps := 2, pfx := "M" }
      | 5 => { s with dps := 1, pfx := "M" }
      | _ => s
    else
      let s := { s with mmmode := "RPM", units := "rpm" }
      match f.d BYTE_RANGE &&& 0x0F with
      | 0 => { s with dps := 2, pfx := "k" }
      | 1 => { s with dps := 1, pfx := "k" }
      | 2 => { s with dps := 3, pfx := "M" }
      | 3 => { s with dps := 2, pfx := "M" }
      | 4 => { s with dps := 1, pfx := "M" }
      | 5 => { s with dps := 0, pfx := "M" }
      | _ => s
  else if f.d BYTE_FUNCTION = FUNCTION_CAPACITANCE then
    let s := { s with mmmode := "Capacitance", units := "F" }
    match f.d BYTE_RANGE &&& 0x0F with
    | 0 => { s with dps := 3, pfx := "n" }
    | 1 => { s with dps := 2, pfx := "n" }
    | 2 => { s with dps := 1, pfx := "n" }
    | 3 => { s with dps := 3, pfx := "\u00B5" }
    | 4 => { s with dps := 2, pfx := "\u00B5" }
    | 5 => { s with dps := 1, pfx := "\u00B5" }
    | 6 => { s with dps := 3, pfx := "m" }
    | 7 => { s with dps := 2, pfx := "m" }
    | _ => s
  else if f.d BYTE_FUNCTION = FUNCTION_TEMPERATURE then
    let s := { s with mmmode := "Temperature" }
    if f.d BYTE_STATUS &&& STATUS_JUDGE ≠ 0 then
      { s with units := "\u00B0C" }
    else
      { s with units := "\u00B0F" }
  else
    s

/-! ## Digit reconstruction and sign (lines 759-769) -/

/-- Lines 759-762: the integer expression assigned to `v` before the sign is applied. -/
def magnitude (f : Frame) : Nat :=
  ((f.d 1 &&& 0x0F) * 1000)
    + ((f.d 2 &&& 0x0F) * 100)
    + ((f.d 3 &&& 0x0F) * 10)
    + ((f.d 4 &&& 0x0F) * 1)

/-- Lines 767-769: whether `v = -v` is executed. -/
def negated (f : Frame) : Bool :=
  f.d BYTE_STATUS &&& STATUS_SIGN ≠ 0

/-! ## Value formatting (lines 779-797) -/

/-- The decimal digit character of `n % 10`. -/
def digitChar (n : Nat) : Char := Char.ofNat (48 + n % 10)

/-- Decimal digits of `n`, most significant first, at least one digit; `fuel` bounds the
number of digits after the first. -/
def decDigitsFuel : Nat → Nat → List Char
  | 0, n => [digitChar n]
  | fuel + 1, n =>
    if n < 10 then [digitChar n] else decDigitsFuel fuel (n / 10) ++ [digitChar n]

/-- Decimal digits of `n` without leading zeros (`0` gives one digit). -/
def decDigits (n : Nat) : List Char := decDigitsFuel n n

/-- The last `p` decimal digits of `m`, most significant first. -/
def fracDigits : Nat → Nat → List Char
  | 0, _ => []
  | p + 1, m => fracDigits p (m / 10) ++ [digitChar m]

/-- Model of the `printf` conversion `% 0W.Pf` (space flag, zero flag, minimum field width
`width`, precision `prec`) applied to the `double` `v / 10^prec`, where `v` is the integer-valued
`double` with sign `neg` and absolute value `mag`.

The source computes `v / 10`, `v / 100`, `v / 1000` in binary floating point.  For
`mag ≤ 16665` the quotient is the `double` nearest to the decimal `mag / 10^prec`, whose distance
from that decimal is far below half a unit of the last printed place, so the conversion prints
exactly the digits of `mag / 10^prec`.  The sign is kept apart from the magnitude because
`v = -v` turns `0.0` into `-0.0`, which `printf` prints with a minus sign.

Output: the sign character (`-`, or a space from the space flag), then zeros up to the field
width (zero flag), then the integer digits, and for a non-zero precision a point and `prec`
fraction digits. -/
def printfFixed (width prec : Nat) (neg : Bool) (mag : Nat) : List Char :=
  let body := decDigits (mag / 10 ^ prec)
    ++ (if prec = 0 then [] else '.' :: fracDigits prec (mag % 10 ^ prec))
  let sign := if neg then '-' else ' '
  sign :: (List.replicate (width - (1 + body.length)) '0' ++ body)

/-- Lines 787-792: `switch (dps)` over the four format strings, each followed by `%s%s` for
`prefix` and `units`.  `linetmp` was emptied at the top of the loop (line 550) and stays empty
when no `case` matches. -/
def formatValue (dps : Nat) (neg : Bool) (mag : Nat) (pfx units : String) : String :=
  match dps with
  | 0 => String.mk (printfFixed 5 0 neg mag) ++ pfx ++ units
  | 1 => String.mk (printfFixed 6 1 neg mag) ++ pfx ++ units
  | 2 => String.mk (printfFixed 6 2 neg mag) ++ pfx ++ units
  | 3 => String.mk (printfFixed 6 3 neg mag) ++ pfx ++ units
  | _ => ""

/-- Model of the conversion `%-40s`: the string, then spaces up to 40 characters. -/
def padRight40 (s : String) : String :=
  s ++ String.mk (List.replicate (40 - s.length) ' ')

/-- The local variables at line 794, after a frame has been decoded and formatted. -/
structure Cycle where
  dps : Nat
  pfx : String
  units : String
  mmmode : String
  linetmp : String
  deriving DecidableEq

/-- Lines 619-793 for a frame `f` held in `d`, with `dps` as left by the previous pass and
`show_mode` the `-m` setting (`g.show_mode`).  The overload test is `(d[6] & 0x01) == 1`; the
clamp `if (dps > 3) dps = 3` is executed, and changes `dps`, only on the non-overload path.  The
test `dps < 0` of line 784 can never hold for a `uint8_t` and is left out. -/
def processFrame (show_mode : Nat) (dps : Nat) (f : Frame) : Cycle :=
  let s := decodeSwitch dps f
  let mmmode := if show_mode = 0 then "" else s.mmmode
  if (f.d BYTE_STATUS &&& STATUS_OL) = 1 then
    { dps := s.dps, pfx := s.pfx, units := s.units, mmmode := mmmode, linetmp := "O.L." }
  else
    let dps := if s.dps > 3 then 3 else s.dps
    { dps := dps, pfx := s.pfx, units := s.units, mmmode := mmmode,
      linetmp := formatValue dps (negated f) (magnitude f) s.pfx s.units }

/-- One pass of the message loop for a received frame: decode, format, and publish
`line1` and `line2` (lines 796-797). -/
def step (show_mode : Nat) (st : Display) (f : Frame) : Display :=
  let c := processFrame show_mode st.dps f
  { dps := c.dps, line1 := padRight40 c.linetmp, line2 := padRight40 c.mmmode }

/-- The display state after the frames of `fs` have been received in order. -/
def runFrames (show_mode : Nat) (st : Display) (fs : List Frame) : Display :=
  fs.foldl (step show_mode) st

/-! ## Specification-side vocabulary

The definitions below follow the wording of the specification; the theorems compare them
with the functions above. -/

/-- The documented function codes: voltage, current (uA, mA, A), resistance, continuity,
diode, frequency/RPM, capacitance, temperature. -/
def documentedFunctions : List Nat :=
  [FUNCTION_VOLTAGE, FUNCTION_CURRENT_UA, FUNCTION_CURRENT_MA, FUNCTION_CURRENT_A,
   FUNCTION_OHMS, FUNCTION_CONTINUITY, FUNCTION_DIODE, FUNCTION_FQ_RPM,
   FUNCTION_CAPACITANCE, FUNCTION_TEMPERATURE]

/-- The metric prefixes of the specification's `Measurement`. -/
inductive Magnitude where
  | none
  | milli
  | micro
  | kilo
  | mega
  | nano
  deriving DecidableEq

/-- The text the program prints for a prefix; "none" is the single space the prefix buffer
is reset to on every pass. -/
def Magnitude.symbol : Magnitude → String
  | .none => " "
  | .milli => "m"
  | .micro => "\u00B5"
  | .kilo => "k"
  | .mega => "M"
  | .nano => "n"

/-- One row of the specification's decode table. -/
structure Row where
  fn : Nat
  nibble : Nat
  dps : Nat
  magnitude : Magnitude
  units : String
  deriving DecidableEq

/-- The rows of the decode table for voltage, the two tabulated current functions,
resistance and capacitance, keyed by function code and range nibble. -/
def decodeTable : List Row :=
  [ ⟨FUNCTION_VOLTAGE, 0, 1, .milli, "V"⟩,
    ⟨FUNCTION_VOLTAGE, 1, 3, .none, "V"⟩,
    ⟨FUNCTION_VOLTAGE, 2, 2, .none, "V"⟩,
    ⟨FUNCTION_VOLTAGE, 3, 1, .none, "V"⟩,
    ⟨FUNCTION_VOLTAGE, 4, 0, .none, "V"⟩,
    ⟨FUNCTION_CURRENT_UA, 0, 2, .milli, "A"⟩,
    ⟨FUNCTION_CURRENT_UA, 1, 1, .milli, "A"⟩,
    ⟨FUNCTION_CURRENT_MA, 0, 1, .micro, "A"⟩,
    ⟨FUNCTION_CURRENT_MA, 1, 0, .micro, "A"⟩,
    ⟨FUNCTION_OHMS, 0, 1, .none, "\u2126"⟩,
    ⟨FUNCTION_OHMS, 1, 3, .kilo, "\u2126"⟩,
    ⟨FUNCTION_OHMS, 2, 2, .kilo, "\u2126"⟩,
    ⟨FUNCTION_OHMS, 3, 1, .kilo, "\u2126"⟩,
    ⟨FUNCTION_OHMS, 4, 3, .mega, "\u2126"⟩,
    ⟨FUNCTION_OHMS, 5, 2, .mega, "\u2126"⟩,
    ⟨FUNCTION_CAPACITANCE, 0, 3, .nano, "F"⟩,
    ⟨FUNCTION_CAPACITANCE, 1, 2, .nano, "F"⟩,
    ⟨FUNCTION_CAPACITANCE, 2, 1, .nano, "F"⟩,
    ⟨FUNCTION_CAPACITANCE, 3, 3, .micro, "F"⟩,
    ⟨FUNCTION_CAPACITANCE, 4, 2, .micro, "F"⟩,
    ⟨FUNCTION_CAPACITANCE, 5, 1, .micro, "F"⟩,
    ⟨FUNCTION_CAPACITANCE, 6, 3, .milli, "F"⟩,
    ⟨FUNCTION_CAPACITANCE, 7, 2, .milli, "F"⟩ ]

/-- The frequency table (judge bit set): range nibble, decimal places, prefix. -/
def frequencyTable : List (Nat × Nat × Magnitude) :=
  [(0, 3, .kilo), (1, 2, .kilo), (2, 1, .kilo), (3, 3, .mega), (4, 2, .mega), (5, 1, .mega)]

/-- The RPM table (judge bit clear): range nibble, decimal places, prefix. -/
def rpmTable : List (Nat × Nat × Magnitude) :=
  [(0, 2, .kilo), (1, 1, .kilo), (2, 3, .mega), (3, 2, .mega), (4, 1, .mega), (5, 0, .mega)]

/-- The low nibble of a byte. -/
def lowNibble (b : Byte) : Nat := b.val % 16

/-- The sign character of a value line: a minus sign when signed, a space otherwise. -/
def signChar (neg : Bool) : Char := if neg then '-' else ' '

/-- The decimal rendering of `r / 10^p` with exactly `p` fractional digits, as the
specification words it: the integer part in ordinary decimal writing, then for `p > 0` a point
and `p` digits. -/
def specNumber (r p : Nat) : List Char :=
  (Nat.repr (r / 10 ^ p)).data ++ (if p = 0 then [] else '.' :: fracDigits p (r % 10 ^ p))

/-- The value line as the specification words it: sign character, number, prefix, unit. -/
def specValueLine (neg : Bool) (r p : Nat) (pfx units : String) : String :=
  String.mk (signChar neg :: specNumber r p) ++ pfx ++ units

/-- The four decimal digits of `r`, thousands first, leading zeros kept. -/
def fourDigits (r : Nat) : List Char :=
  [digitChar (r / 1000), digitChar (r / 100), digitChar (r / 10), digitChar r]

/-- The list `l` with a decimal point put before its last `p` characters; unchanged when `p = 0`. -/
def pointBeforeLast (p : Nat) (l : List Char) : List Char :=
  if p = 0 then l else l.take (l.length - p) ++ '.' :: l.drop (l.length - p)

/-! ## Concrete frames used as inputs -/

/-- Voltage, range 0, digits 0025, status clear: the end-to-end example of the specification. -/
def frameVolts25 : Frame := ⟨0x00, 0x30, 0x30, 0x32, 0x35, 0x3B, 0x00, 0x00, 0x00⟩

/-- Voltage, range 4 (no decimal places), digits 0025. -/
def frameVolts4 : Frame := ⟨0x04, 0x30, 0x30, 0x32, 0x35, 0x3B, 0x00, 0x00, 0x00⟩

/-- Diode (three decimal places), digits 0025. -/
def frameDiode : Frame := ⟨0x00, 0x30, 0x30, 0x32, 0x35, 0x31, 0x00, 0x00, 0x00⟩

/-- A-range current, digits 0025. -/
def frameAmps : Frame := ⟨0x00, 0x30, 0x30, 0x32, 0x35, 0x3F, 0x00, 0x00, 0x00⟩

/-- A frame whose function byte `0x00` is not a documented code, digits 1234. -/
def frameUnknown : Frame := ⟨0x00, 0x31, 0x32, 0x33, 0x34, 0x00, 0x00, 0x00, 0x00⟩

/-- Frequency/RPM function with the judge bit set, range 3, digits 1234. -/
def frameFrequency : Frame := ⟨0x33, 0x31, 0x32, 0x33, 0x34, 0x32, 0x08, 0x00, 0x00⟩

/-- Resistance, range byte `0x34` (nibble 4), digits 1234. -/
def frameOhms : Frame := ⟨0x34, 0x31, 0x32, 0x33, 0x34, 0x33, 0x00, 0x00, 0x00⟩

/-- Frequency/RPM function with the judge bit clear, range 5, digits 1234. -/
def frameRpm : Frame := ⟨0x35, 0x31, 0x32, 0x33, 0x34, 0x32, 0x00, 0x00, 0x00⟩

/-- Voltage, range 4, all four digit bytes `0x3F` (low nibble 15). -/
def frameAllF : Frame := ⟨0x04, 0x3F, 0x3F, 0x3F, 0x3F, 0x3B, 0x00, 0x00, 0x00⟩

/-- Voltage, range 0, digits 0025, status `0x05`: sign bit and overload bit both set. -/
def frameOverloadNegative : Frame := ⟨0x00, 0x30, 0x30, 0x32, 0x35, 0x3B, 0x05, 0x00, 0x00⟩

/-- Voltage, range 0, digits 0025, status `0x04`: sign bit set, overload bit clear. -/
def frameNegative : Frame := ⟨0x00, 0x30, 0x30, 0x32, 0x35, 0x3B, 0x04, 0x00, 0x00⟩

/-- Voltage, range 1, digits 9999. -/
def frameVolts9999 : Frame := ⟨0x01, 0x39, 0x39, 0x39, 0x39, 0x3B, 0x00, 0x00, 0x00⟩

/-- Voltage, range 1, digits 0000. -/
def frameVolts0 : Frame := ⟨0x01, 0x30, 0x30, 0x30, 0x30, 0x3B, 0x00, 0x00, 0x00⟩

/-! ## The serial read loop (lines 591-604) and one pass of the message loop -/

/-- The size of the data packet buffer `d` (`sizeof(d)`, line 91 and line 345). -/
def SSIZE : Nat := 1024

/-- The byte stream as the read loop sees it: the outcome of the `k`-th call of `ReadFile` for
one byte, `some b` when the byte `b` was delivered (`bytes_read = 1`) and `none` when the call
returned without a byte (`bytes_read = 0`). -/
abbrev ByteStream := Nat → Option Byte

/-- The variables of the read loop, with two records kept for the proofs: `calls`, the number
of `ReadFile` calls made so far, and `writes`, the indices of `d` assigned so far (latest
first).  The buffer `d` is a function on all indices so that an assignment outside the array
would show up in `writes` instead of being lost. -/
structure ReadState where
  d : Nat → Byte
  temp_char : Byte
  i : Nat
  end_of_frame_received : Bool
  calls : Nat
  writes : List Nat

/-- Lines 593-604, the `do { ... } while ((bytes_read > 0) && (i < sizeof(d)))` loop; each unit
of `fuel` pays for one execution of the body, and the result is `none` when the fuel runs out
before the loop stops.  A call of `ReadFile` that delivers no byte leaves `temp_char` as it
was.  The line-feed test `temp_char == 10` is made after every call. -/
def readLoop (reads : ByteStream) : Nat → ReadState → Option ReadState
  | 0, _ => none
  | fuel + 1, s =>
    let temp_char := match reads s.calls with
      | some b => b
      | none => s.temp_char
    let bytes_read := match reads s.calls with
      | some _ => 1
      | none => 0
    let s1 : ReadState :=
      { s with temp_char := temp_char, d := Function.update s.d s.i temp_char,
               calls := s.calls + 1, writes := s.i :: s.writes }
    if temp_char.val = 10 then
      some { s1 with end_of_frame_received := true }
    else
      let s2 : ReadState := { s1 with i := s.i + 1 }
      if bytes_read > 0 ∧ s2.i < SSIZE then readLoop reads fuel s2 else some s2

/-- Lines 591-592 followed by the loop: `end_of_frame_received = 0; i = 0;`, with the buffer
and `temp_char` as the previous pass (or the uninitialised stack) left them. -/
def readFrame (reads : ByteStream) (fuel : Nat) (d : Nat → Byte) (temp_char : Byte) :
    Option ReadState :=
  readLoop reads fuel
    { d := d, temp_char := temp_char, i := 0, end_of_frame_received := false,
      calls := 0, writes := [] }

/-- The bytes `d[0] .. d[8]` that the decode and format stage reads. -/
def frameOfBuffer (d : Nat → Byte) : Frame :=
  ⟨d 0, d 1, d 2, d 3, d 4, d 5, d 6, d 7, d 8⟩

/-- Everything that survives from one pass of the message loop to the next: the buffer `d`,
`temp_char`, and the display state. -/
structure Machine where
  d : Nat → Byte
  temp_char : Byte
  display : Display

/-- One pass of the message loop in which `WaitCommEvent` reported serial activity (lines
590-797): the read loop, then decode, format and publish, with no test of `i` or of
`end_of_frame_received` in between. -/
def pass (show_mode : Nat) (reads : ByteStream) (m : Machine) : Option Machine :=
  match readFrame reads SSIZE m.d m.temp_char with
  | none => none
  | some r =>
    some { d := r.d, temp_char := r.temp_char,
           display := step show_mode m.display (frameOfBuffer r.d) }

/-- A finite byte stream: the listed outcomes in order, and no byte after them. -/
def streamOfList (l : List (Option Byte)) : ByteStream :=
  fun k => l.getD k none

/-- The bytes of a list delivered one per call. -/
def streamOfBytes (l : List Byte) : ByteStream :=
  streamOfList (l.map some)

/-- A machine at program start with the buffer and `temp_char` zeroed. -/
def Machine.init : Machine :=
  { d := fun _ => 0, temp_char := 0, display := Display.init }

/-- The nine bytes of `frameVolts25`, a tenth non-terminator byte `0x30`, then the line-feed
terminator. -/
def streamOverrun : ByteStream :=
  streamOfBytes [0x00, 0x30, 0x30, 0x32, 0x35, 0x3B, 0x00, 0x00, 0x00, 0x30, 0x0A]

/-- The nine bytes of `frameVolts25` followed by the terminator: a well-formed frame. -/
def streamVolts25 : ByteStream :=
  streamOfBytes [0x00, 0x30, 0x30, 0x32, 0x35, 0x3B, 0x00, 0x00, 0x00, 0x0A]

/-- Three payload bytes (range 1, digits 9 and 9) followed by the terminator: a short frame. -/
def streamShort : ByteStream :=
  streamOfBytes [0x01, 0x39, 0x39, 0x0A]

/-- A stream that never delivers a line feed and never runs dry: the byte `0x30` forever. -/
def streamEndless : ByteStream :=
  fun _ => some 0x30

/-- What the read loop guarantees about its final state `r` when it was entered in state `s`
with `s.i = s.calls`: between one and `SSIZE - s.i` calls were made, every index written is
below `SSIZE`, every call before the last delivered a byte other than line feed, the last call
delivered a line feed, or no byte, or filled the buffer, positions below `s.i` are untouched,
and every byte delivered is stored at the index of its call. -/
structure ReadSpec (reads : ByteStream) (s r : ReadState) : Prop where
  calls_gt : s.calls < r.calls
  calls_le : r.calls ≤ SSIZE
  index_le : r.i ≤ r.calls
  written : ∀ w ∈ r.writes, w ∈ s.writes ∨ w < SSIZE
  written_length : r.writes.length = s.writes.length + (r.calls - s.calls)
  before : ∀ k, s.calls ≤ k → k + 1 < r.calls → ∃ b, reads k = some b ∧ b.val ≠ 10
  last : (∃ b, reads (r.calls - 1) = some b ∧ b.val = 10) ∨ reads (r.calls - 1) = none
    ∨ (r.calls = SSIZE ∧ r.i = SSIZE)
  keep : ∀ j, j < s.i → r.d j = s.d j
  stored : ∀ j b, s.i ≤ j → j < r.calls → reads j = some b → r.d j = b

/-! ## Shared lemmas -/

theorem land_0x0F (x : Nat) : x &&& 0x0F = x % 16 :=
  Nat.and_pow_two_sub_one_eq_mod x 4

set_option maxRecDepth 100000 in
theorem byte_bits (b : Byte) :
    (b.val &&& STATUS_JUDGE ≠ 0 ↔ b.val.testBit 3 = true)
    ∧ (b.val &&& STATUS_SIGN ≠ 0 ↔ b.val.testBit 2 = true)
    ∧ ((b.val &&& STATUS_OL) = 1 ↔ b.val.testBit 0 = true) := by
  revert b; decide

theorem fn_codes :
    FUNCTION_VOLTAGE = 59 ∧ FUNCTION_CURRENT_UA = 61 ∧ FUNCTION_CURRENT_MA = 57
    ∧ FUNCTION_CURRENT_A = 63 ∧ FUNCTION_OHMS = 51 ∧ FUNCTION_CONTINUITY = 53
    ∧ FUNCTION_DIODE = 49 ∧ FUNCTION_FQ_RPM = 50 ∧ FUNCTION_CAPACITANCE = 54
    ∧ FUNCTION_TEMPERATURE = 52 := by decide

theorem decodeSwitch_undocumented (dps : Nat) (f : Frame)
    (h : f.d BYTE_FUNCTION ∉ documentedFunctions) :
    decodeSwitch dps f = { dps := dps, pfx := " ", units := "", mmmode := "" } := by
  simp only [documentedFunctions, List.mem_cons, List.mem_singleton, not_or, List.not_mem_nil,
    not_false_eq_true, and_true] at h
  obtain ⟨h1, h2, h3, h4, h5, h6, h7, h8, h9, h10⟩ := h
  simp only [decodeSwitch, if_neg h1, if_neg h2, if_neg h3, if_neg h4, if_neg h5, if_neg h6,
    if_neg h7, if_neg h8, if_neg h9, if_neg h10]

theorem decDigitsFuel_lt (fuel n : Nat) (h : n < 10) : decDigitsFuel fuel n = [digitChar n] := by
  cases fuel with
  | zero => rfl
  | succ k => simp only [decDigitsFuel, if_pos h]

theorem fracDigits_zero (k : Nat) : fracDigits k 0 = List.replicate k '0' := by
  induction k with
  | zero => rfl
  | succ k ih =>
    rw [fracDigits, Nat.zero_div, ih, List.replicate_succ']
    rfl

theorem digitChar_congr (a b : Nat) (h : a % 10 = b % 10) : digitChar a = digitChar b := by
  unfold digitChar
  rw [h]

/-- Padding lemma: zero-padding the digits of `n` to `k + 1` places gives its last `k + 1` digits. -/
theorem pad_decDigitsFuel (k : Nat) : ∀ n fuel : Nat, n < 10 ^ (k + 1) → n ≤ fuel →
    List.replicate (k + 1 - (decDigitsFuel fuel n).length) '0' ++ decDigitsFuel fuel n
      = fracDigits (k + 1) n := by
  induction k with
  | zero =>
    intro n fuel hn _
    rw [decDigitsFuel_lt fuel n (by simpa using hn)]
    rfl
  | succ k ih =>
    intro n fuel hn hf
    by_cases h10 : n < 10
    · rw [decDigitsFuel_lt fuel n h10, fracDigits, Nat.div_eq_of_lt h10, fracDigits_zero]
      rfl
    · obtain ⟨fuel1, rfl⟩ : ∃ m, fuel = m + 1 := ⟨fuel - 1, by omega⟩
      have hq : n / 10 < 10 ^ (k + 1) := by
        rw [Nat.div_lt_iff_lt_mul (by decide)]
        rw [Nat.pow_succ] at hn
        exact hn
      have hqf : n / 10 ≤ fuel1 := by omega
      rw [decDigitsFuel, if_neg h10, fracDigits, ← ih (n / 10) fuel1 hq hqf,
        List.length_append, List.length_singleton, Nat.add_sub_add_right, List.append_assoc]

theorem pad_decDigits (k n : Nat) (hn : n < 10 ^ (k + 1)) :
    List.replicate (k + 1 - (decDigits n).length) '0' ++ decDigits n = fracDigits (k + 1) n :=
  pad_decDigitsFuel k n n hn (Nat.le_refl n)

theorem fracDigits_length (p : Nat) : ∀ m, (fracDigits p m).length = p := by
  induction p with
  | zero => intro m; rfl
  | succ p ih => intro m; rw [fracDigits, List.length_append, ih]; rfl

theorem printfFixed_eq (w p : Nat) (neg : Bool) (r k : Nat)
    (hw : w = k + 1 + 1 + (if p = 0 then 0 else p + 1)) (hr : r / 10 ^ p < 10 ^ (k + 1)) :
    printfFixed w p neg r
      = signChar neg :: (fracDigits (k + 1) (r / 10 ^ p)
          ++ (if p = 0 then [] else '.' :: fracDigits p (r % 10 ^ p))) := by
  have hlen : (if p = 0 then [] else '.' :: fracDigits p (r % 10 ^ p)).length
      = (if p = 0 then 0 else p + 1) := by
    split
    · rfl
    · rw [List.length_cons, fracDigits_length]
  have hcount : w - (1 + (decDigits (r / 10 ^ p)
      ++ (if p = 0 then [] else '.' :: fracDigits p (r % 10 ^ p))).length)
      = k + 1 - (decDigits (r / 10 ^ p)).length := by
    rw [List.length_append, hlen, hw]
    omega
  simp only [printfFixed, signChar, hcount]
  rw [← pad_decDigits k _ hr, List.append_assoc]

theorem formatValue_four_digits (p : Nat) (neg : Bool) (r : Nat) (pfx units : String)
    (hp : p ≤ 3) (hr : r ≤ 9999) :
    formatValue p neg r pfx units
      = String.mk (signChar neg :: pointBeforeLast p (fourDigits r)) ++ pfx ++ units := by
  have e1 : digitChar (r / 10 / 10 / 10) = digitChar (r / 1000) :=
    digitChar_congr _ _ (by omega)
  have e2 : digitChar (r / 10 / 10) = digitChar (r / 100) := digitChar_congr _ _ (by omega)
  have e3 : digitChar (r % 10) = digitChar r := digitChar_congr _ _ (by omega)
  have e4 : digitChar (r / 100 / 10) = digitChar (r / 1000) := digitChar_congr _ _ (by omega)
  have e5 : digitChar (r % 100 / 10) = digitChar (r / 10) := digitChar_congr _ _ (by omega)
  have e6 : digitChar (r % 100) = digitChar r := digitChar_congr _ _ (by omega)
  have e7 : digitChar (r % 1000 / 10 / 10) = digitChar (r / 100) :=
    digitChar_congr _ _ (by omega)
  have e8 : digitChar (r % 1000 / 10) = digitChar (r / 10) := digitChar_congr _ _ (by omega)
  have e9 : digitChar (r % 1000) = digitChar r := digitChar_congr _ _ (by omega)
  have t2 : (10 : Nat) ^ 2 = 100 := rfl
  have t3 : (10 : Nat) ^ 3 = 1000 := rfl
  interval_cases p
  · rw [formatValue, printfFixed_eq 5 0 neg r 3 rfl (by norm_num; omega)]
    simp only [fracDigits, pow_zero, Nat.div_one, if_true, e1, e2]
    rfl
  · rw [formatValue, printfFixed_eq 6 1 neg r 2 rfl (by norm_num; omega)]
    simp only [fracDigits, pow_one, e1, e2, e3]
    rfl
  · rw [formatValue, printfFixed_eq 6 2 neg r 1 rfl (by norm_num; omega)]
    simp only [fracDigits, t2, e4, e5, e6]
    rfl
  · rw [formatValue, printfFixed_eq 6 3 neg r 0 rfl (by norm_num; omega)]
    simp only [fracDigits, t3, e7, e8, e9]
    rfl

theorem magnitude_eq (f : Frame) :
    magnitude f = lowNibble f.digit3 * 1000 + lowNibble f.digit2 * 100
      + lowNibble f.digit1 * 10 + lowNibble f.digit0 := by
  simp only [magnitude, Frame.d, land_0x0F, lowNibble, Nat.mul_one]

theorem formatValue_negative (p : Nat) (mag : Nat) (pfx units : String) (hp : p ≤ 3) :
    ∃ rest : String, formatValue p true mag pfx units = "-" ++ rest := by
  interval_cases p
  · exact ⟨String.mk (printfFixed 5 0 true mag).tail ++ pfx ++ units, rfl⟩
  · exact ⟨String.mk (printfFixed 6 1 true mag).tail ++ pfx ++ units, rfl⟩
  · exact ⟨String.mk (printfFixed 6 2 true mag).tail ++ pfx ++ units, rfl⟩
  · exact ⟨String.mk (printfFixed 6 3 true mag).tail ++ pfx ++ units, rfl⟩

/-! ## Claims -/

/-- C1 (as stated, refuted): after the voltage frame `frameVolts25` has been displayed, the frame
`frameUnknown`, whose function byte is not a documented code, replaces both display lines;
the new value line is built from that frame's digits with the decimal places of the
previous frame. -/
theorem C1_unknown_function_rewrites_display :
    frameUnknown.d BYTE_FUNCTION ∉ documentedFunctions
    ∧ (runFrames 1 Display.init [frameVolts25]).line1 = padRight40 " 002.5mV"
    ∧ (runFrames 1 Display.init [frameVolts25]).line2 = padRight40 "Volts"
    ∧ (runFrames 1 Display.init [frameVolts25, frameUnknown]).line1 = padRight40 " 123.4 "
    ∧ (runFrames 1 Display.init [frameVolts25, frameUnknown]).line2 = padRight40 ""
    ∧ (runFrames 1 Display.init [frameVolts25, frameUnknown]).line1
        ≠ (runFrames 1 Display.init [frameVolts25]).line1
    ∧ (runFrames 1 Display.init [frameVolts25, frameUnknown]).line2
        ≠ (runFrames 1 Display.init [frameVolts25]).line2 := by
  decide

/-- C1 (amended): for a frame whose function byte is not a documented code no error is raised;
the prefix, unit and mode label are the values they are reset to on every pass (a single space,
empty, empty), the mode line is replaced by a blank line, and the value line is replaced by
`O.L.` when the overload bit is set and otherwise by the sign and digits of this frame,
formatted with some number of decimal places between 0 and 3 and followed by a space. -/
theorem C1_unknown_function_resets_strings (show_mode dps : Nat) (st : Display) (f : Frame)
    (h : f.d BYTE_FUNCTION ∉ documentedFunctions) :
    (decodeSwitch dps f).pfx = " " ∧ (decodeSwitch dps f).units = ""
    ∧ (decodeSwitch dps f).mmmode = ""
    ∧ (step show_mode st f).line2 = padRight40 ""
    ∧ (f.status.val.testBit 0 = true → (step show_mode st f).line1 = padRight40 "O.L.")
    ∧ (f.status.val.testBit 0 = false → ∃ p, p ≤ 3 ∧
        (step show_mode st f).line1
          = padRight40 (formatValue p (negated f) (magnitude f) " " "")) := by
  have hd := fun d => decodeSwitch_undocumented d f h
  have hb := (byte_bits f.status).2.2
  refine ⟨by rw [hd], by rw [hd], by rw [hd], ?_, ?_, ?_⟩
  · simp only [step, processFrame, hd, ite_self]
    split <;> rfl
  · intro ho
    have : (f.d BYTE_STATUS &&& STATUS_OL) = 1 := hb.2 ho
    simp only [step, processFrame, this, if_true]
  · intro ho
    have : ¬ (f.d BYTE_STATUS &&& STATUS_OL) = 1 := fun hc => by
      rw [hb.1 hc] at ho; exact Bool.noConfusion ho
    refine ⟨if st.dps > 3 then 3 else st.dps, by split <;> omega, ?_⟩
    simp only [step, processFrame, this, if_false, hd]

/-- Witness for C1: `frameUnknown` satisfies the hypothesis. -/
theorem C1_unknown_function_resets_strings_witness :
    frameUnknown.d BYTE_FUNCTION ∉ documentedFunctions
    ∧ (step 1 Display.init frameUnknown).line2 = padRight40 "" :=
  ⟨by decide, (C1_unknown_function_resets_strings 1 0 Display.init frameUnknown (by decide)).2.2.2.1⟩

/-- C2 (code defect): the A-range current frame `frameAmps` is rendered with three decimal places
after a diode frame and with none after a voltage range-4 frame, because `dps` is not reset
between passes and the A-range case does not assign it. -/
theorem C2_current_A_line_depends_on_history :
    (runFrames 0 Display.init [frameDiode]).dps = 3
    ∧ (runFrames 0 Display.init [frameVolts4]).dps = 0
    ∧ (processFrame 0 (runFrames 0 Display.init [frameDiode]).dps frameAmps).linetmp = " 0.025 A"
    ∧ (processFrame 0 (runFrames 0 Display.init [frameVolts4]).dps frameAmps).linetmp = " 0025 A"
    ∧ (runFrames 0 Display.init [frameDiode, frameAmps]).line1
        ≠ (runFrames 0 Display.init [frameVolts4, frameAmps]).line1 := by
  decide

/-- C3: every row of the decode table is what the decode switch yields for a frame with that
function code and range low nibble, whatever the other bytes, the high nibble of the range byte
and the decimal places left by earlier frames; continuity gives one decimal place and unit ohm,
diode three decimal places and unit volt. -/
theorem C3_decode_table (dps : Nat) (f : Frame) :
    (∀ r ∈ decodeTable, f.d BYTE_FUNCTION = r.fn → lowNibble f.range = r.nibble →
        (decodeSwitch dps f).dps = r.dps
        ∧ (decodeSwitch dps f).pfx = r.magnitude.symbol
        ∧ (decodeSwitch dps f).units = r.units)
    ∧ (f.d BYTE_FUNCTION = FUNCTION_CONTINUITY →
        (decodeSwitch dps f).dps = 1 ∧ (decodeSwitch dps f).units = "\u2126")
    ∧ (f.d BYTE_FUNCTION = FUNCTION_DIODE →
        (decodeSwitch dps f).dps = 3 ∧ (decodeSwitch dps f).units = "V") := by
  refine ⟨?_, ?_, ?_⟩
  · simp only [decodeTable, List.forall_mem_cons, List.not_mem_nil, false_implies, implies_true, and_true, lowNibble]
    refine ⟨?_, ?_, ?_, ?_, ?_, ?_, ?_, ?_, ?_, ?_, ?_, ?_, ?_, ?_, ?_, ?_, ?_, ?_, ?_, ?_, ?_, ?_, ?_⟩ <;>
    · intro hfn hnib
      have hr : f.d BYTE_RANGE &&& 0x0F = f.range.val % 16 := land_0x0F _
      simp [decodeSwitch, hfn, hr, hnib, fn_codes, Magnitude.symbol]
  · intro hfn
    simp only [decodeSwitch, hfn]
    simp [fn_codes]
  · intro hfn
    simp [decodeSwitch, hfn, fn_codes]

/-- Witness for C3: the resistance frame `frameOhms` (range byte `0x34`) matches the row
for nibble 4. -/
theorem C3_decode_table_witness :
    (decodeSwitch 0 frameOhms).dps = 3 ∧ (decodeSwitch 0 frameOhms).pfx = "M"
    ∧ (decodeSwitch 0 frameOhms).units = "\u2126" :=
  (C3_decode_table 0 frameOhms).1 ⟨FUNCTION_OHMS, 4, 3, .mega, "\u2126"⟩
    (by decide) (by decide) (by decide)

/-- C4: for a frame with the frequency/RPM function code, the judge bit (bit 3 of the status
byte) alone selects the table: set gives mode Frequency, unit Hz and the frequency rows, clear
gives mode RPM, unit rpm and the RPM rows, for every value of the other bytes and bits. -/
theorem C4_frequency_rpm_tables (dps : Nat) (f : Frame)
    (hfn : f.d BYTE_FUNCTION = FUNCTION_FQ_RPM) :
    (f.status.val.testBit 3 = true →
        (decodeSwitch dps f).mmmode = "Frequency" ∧ (decodeSwitch dps f).units = "Hz"
        ∧ ∀ e ∈ frequencyTable, lowNibble f.range = e.1 →
            (decodeSwitch dps f).dps = e.2.1 ∧ (decodeSwitch dps f).pfx = e.2.2.symbol)
    ∧ (f.status.val.testBit 3 = false →
        (decodeSwitch dps f).mmmode = "RPM" ∧ (decodeSwitch dps f).units = "rpm"
        ∧ ∀ e ∈ rpmTable, lowNibble f.range = e.1 →
            (decodeSwitch dps f).dps = e.2.1 ∧ (decodeSwitch dps f).pfx = e.2.2.symbol) := by
  have hb := (byte_bits f.status).1
  have hr : f.d BYTE_RANGE &&& 0x0F = f.range.val % 16 := land_0x0F _
  constructor
  · intro hj
    have hj2 : f.d BYTE_STATUS &&& STATUS_JUDGE ≠ 0 := hb.2 hj
    refine ⟨?_, ?_, ?_⟩
    · simp [decodeSwitch, hfn, fn_codes, hj2]
      split <;> rfl
    · simp [decodeSwitch, hfn, fn_codes, hj2]
      split <;> rfl
    · simp only [frequencyTable, List.forall_mem_cons, List.not_mem_nil, false_implies,
        implies_true, and_true, lowNibble]
      refine ⟨?_, ?_, ?_, ?_, ?_, ?_⟩ <;>
      · intro hnib
        simp [decodeSwitch, hfn, hr, hnib, fn_codes, Magnitude.symbol, hj2]
  · intro hj
    have hj2 : ¬ (f.d BYTE_STATUS &&& STATUS_JUDGE ≠ 0) := fun hc => by
      rw [hb.1 hc] at hj; exact Bool.noConfusion hj
    refine ⟨?_, ?_, ?_⟩
    · simp [decodeSwitch, hfn, fn_codes, hj2]
      split <;> rfl
    · simp [decodeSwitch, hfn, fn_codes, hj2]
      split <;> rfl
    · simp only [rpmTable, List.forall_mem_cons, List.not_mem_nil, false_implies,
        implies_true, and_true, lowNibble]
      refine ⟨?_, ?_, ?_, ?_, ?_, ?_⟩ <;>
      · intro hnib
        simp [decodeSwitch, hfn, hr, hnib, fn_codes, Magnitude.symbol, hj2]

/-- Witness for C4: `frameFrequency` (judge set, range 3) reads the frequency table and
`frameRpm` (judge clear, range 5) the RPM table. -/
theorem C4_frequency_rpm_tables_witness :
    ((decodeSwitch 0 frameFrequency).mmmode = "Frequency"
      ∧ (decodeSwitch 0 frameFrequency).dps = 3 ∧ (decodeSwitch 0 frameFrequency).pfx = "M")
    ∧ ((decodeSwitch 0 frameRpm).mmmode = "RPM"
      ∧ (decodeSwitch 0 frameRpm).dps = 0 ∧ (decodeSwitch 0 frameRpm).pfx = "M") :=
  ⟨⟨((C4_frequency_rpm_tables 0 frameFrequency (by decide)).1 (by decide)).1,
    ((C4_frequency_rpm_tables 0 frameFrequency (by decide)).1 (by decide)).2.2
      (3, 3, .mega) (by decide) (by decide)⟩,
   ⟨((C4_frequency_rpm_tables 0 frameRpm (by decide)).2 (by decide)).1,
    ((C4_frequency_rpm_tables 0 frameRpm (by decide)).2 (by decide)).2.2
      (5, 0, .mega) (by decide) (by decide)⟩⟩

/-- C5 (as stated, refuted): the value line rendered for `frameVolts25` is not ` 2.5mV`. -/
theorem C5_value_line_is_zero_padded :
    (processFrame 1 0 frameVolts25).linetmp ≠ " 2.5mV" := by
  decide

/-- C5 (amended): the frame `[0x00, 0x30, 0x30, 0x32, 0x35, 0x3B, 0x00, 0x00, 0x00]` decodes to
mode Volts, unit `V`, prefix milli, one decimal place, raw value 25, not signed, not overload,
and its value line is ` 002.5mV`, whatever the mode-line setting and the earlier frames. -/
theorem C5_end_to_end_volts (show_mode dps : Nat) :
    decodeSwitch dps frameVolts25 = { dps := 1, pfx := "m", units := "V", mmmode := "Volts" }
    ∧ (decodeSwitch dps frameVolts25).pfx = Magnitude.milli.symbol
    ∧ magnitude frameVolts25 = 25
    ∧ negated frameVolts25 = false
    ∧ frameVolts25.status.val.testBit 0 = false
    ∧ (processFrame show_mode dps frameVolts25).linetmp = " 002.5mV" :=
  ⟨rfl, rfl, rfl, rfl, rfl, rfl⟩

/-- C6: the reconstructed magnitude is `n1*1000 + n2*100 + n3*10 + n4` for the low nibbles of
bytes 1..4; two frames that agree on those four low nibbles have the same magnitude; low
nibbles (0,0,0,0) give 0 and (9,9,9,9) give 9999. -/
theorem C6_magnitude_from_low_nibbles (f : Frame) :
    magnitude f = lowNibble f.digit3 * 1000 + lowNibble f.digit2 * 100
      + lowNibble f.digit1 * 10 + lowNibble f.digit0
    ∧ (∀ g : Frame, lowNibble g.digit3 = lowNibble f.digit3 →
        lowNibble g.digit2 = lowNibble f.digit2 → lowNibble g.digit1 = lowNibble f.digit1 →
        lowNibble g.digit0 = lowNibble f.digit0 → magnitude g = magnitude f)
    ∧ (lowNibble f.digit3 = 0 → lowNibble f.digit2 = 0 → lowNibble f.digit1 = 0 →
        lowNibble f.digit0 = 0 → magnitude f = 0)
    ∧ (lowNibble f.digit3 = 9 → lowNibble f.digit2 = 9 → lowNibble f.digit1 = 9 →
        lowNibble f.digit0 = 9 → magnitude f = 9999) := by
  refine ⟨magnitude_eq f, ?_, ?_, ?_⟩
  · intro g h3 h2 h1 h0
    rw [magnitude_eq, magnitude_eq, h3, h2, h1, h0]
  · intro h3 h2 h1 h0
    rw [magnitude_eq, h3, h2, h1, h0]
  · intro h3 h2 h1 h0
    rw [magnitude_eq, h3, h2, h1, h0]

/-- Witness for C6: the digit bytes `0x39` of `frameVolts9999` give 9999, the digit bytes
`0x30` of `frameVolts0` give 0, and changing the high nibble of a digit byte and the status
byte of `frameAllF` leaves its magnitude unchanged. -/
theorem C6_magnitude_from_low_nibbles_witness :
    magnitude frameVolts9999 = 9999 ∧ magnitude frameVolts0 = 0
    ∧ magnitude { frameAllF with digit3 := 0x0F, status := 0x04 } = magnitude frameAllF :=
  ⟨(C6_magnitude_from_low_nibbles frameVolts9999).2.2.2
      (by decide) (by decide) (by decide) (by decide),
   (C6_magnitude_from_low_nibbles frameVolts0).2.2.1
      (by decide) (by decide) (by decide) (by decide),
   (C6_magnitude_from_low_nibbles frameAllF).2.1 _
      (by decide) (by decide) (by decide) (by decide)⟩

/-- C7 (as stated, refuted): with the four digit bytes `0x3F` the magnitude is 16665, above
9999. -/
theorem C7_magnitude_exceeds_9999 : magnitude frameAllF = 16665 ∧ ¬ magnitude frameAllF ≤ 9999 := by decide

/-- C7 (amended): for every frame the magnitude is at most 16665, and it is at most 9999
whenever the low nibble of each of the four digit bytes is at most 9. -/
theorem C7_magnitude_bounds (f : Frame) :
    magnitude f ≤ 16665
    ∧ (lowNibble f.digit3 ≤ 9 → lowNibble f.digit2 ≤ 9 → lowNibble f.digit1 ≤ 9 →
        lowNibble f.digit0 ≤ 9 → magnitude f ≤ 9999) := by
  rw [magnitude_eq]
  have h3 : lowNibble f.digit3 < 16 := Nat.mod_lt _ (by decide)
  have h2 : lowNibble f.digit2 < 16 := Nat.mod_lt _ (by decide)
  have h1 : lowNibble f.digit1 < 16 := Nat.mod_lt _ (by decide)
  have h0 : lowNibble f.digit0 < 16 := Nat.mod_lt _ (by decide)
  constructor
  · omega
  · intro _ _ _ _; omega

/-- Witness for C7: the ASCII digit bytes of `frameVolts9999` have low nibbles 9. -/
theorem C7_magnitude_bounds_witness : magnitude frameVolts9999 ≤ 9999 :=
  (C7_magnitude_bounds frameVolts9999).2 (by decide) (by decide) (by decide) (by decide)

/-- C8: when bit 0 of the status byte (overload) is set, the value line is `O.L.`, for every
value of the other bytes and bits, of the mode-line setting and of the state left by earlier
frames; the published `line1` is that text padded to the display width. -/
theorem C8_overload_line (show_mode dps : Nat) (st : Display) (f : Frame)
    (h : f.status.val.testBit 0 = true) :
    (processFrame show_mode dps f).linetmp = "O.L."
    ∧ (step show_mode st f).line1 = padRight40 "O.L." := by
  have ho : (f.d BYTE_STATUS &&& STATUS_OL) = 1 := (byte_bits f.status).2.2.2 h
  constructor
  · simp only [processFrame, ho, if_true]
  · simp only [step, processFrame, ho, if_true]

/-- Witness for C8: `frameOverloadNegative` has the overload bit set. -/
theorem C8_overload_line_witness :
    (processFrame 1 3 frameOverloadNegative).linetmp = "O.L." :=
  (C8_overload_line 1 3 Display.init frameOverloadNegative (by decide)).1

/-- C9 (as stated, refuted): `frameOverloadNegative` has the sign bit set, and its value line
`O.L.` contains no minus sign. -/
theorem C9_overload_hides_minus :
    frameOverloadNegative.status.val.testBit 2 = true
    ∧ (processFrame 1 0 frameOverloadNegative).linetmp = "O.L."
    ∧ '-' ∉ (processFrame 1 0 frameOverloadNegative).linetmp.data := by
  decide

/-- C9 (amended): when bit 2 of the status byte (sign) is set the value is negated, and when
in addition the overload bit is clear the value line begins with a minus sign. -/
theorem C9_sign_bit_gives_minus (show_mode dps : Nat) (f : Frame)
    (hs : f.status.val.testBit 2 = true) :
    negated f = true
    ∧ (f.status.val.testBit 0 = false →
        ∃ rest : String, (processFrame show_mode dps f).linetmp = "-" ++ rest) := by
  have hb := byte_bits f.status
  have hn : negated f = true := by
    have : f.d BYTE_STATUS &&& STATUS_SIGN ≠ 0 := hb.2.1.2 hs
    simp only [negated, this, not_false_eq_true, decide_True, ne_eq]
  refine ⟨hn, fun ho => ?_⟩
  have hol : ¬ (f.d BYTE_STATUS &&& STATUS_OL) = 1 := fun hc => by
    rw [hb.2.2.1 hc] at ho; exact Bool.noConfusion ho
  simp only [processFrame, hol, if_false, hn]
  exact formatValue_negative _ _ _ _ (by split <;> omega)

/-- Witness for C9: `frameNegative` has the sign bit set and the overload bit clear. -/
theorem C9_sign_bit_gives_minus_witness :
    negated frameNegative = true
    ∧ ∃ rest : String, (processFrame 1 0 frameNegative).linetmp = "-" ++ rest :=
  ⟨(C9_sign_bit_gives_minus 1 0 frameNegative (by decide)).1,
   (C9_sign_bit_gives_minus 1 0 frameNegative (by decide)).2 (by decide)⟩

/-- C10 (as stated, refuted): for raw value 25 with one decimal place the program prints
` 002.5mV`, not the sign followed by the plain decimal rendering ` 2.5mV`. -/
theorem C10_number_is_zero_padded :
    formatValue 1 false 25 "m" "V" = " 002.5mV"
    ∧ specValueLine false 25 1 "m" "V" = " 2.5mV"
    ∧ formatValue 1 false 25 "m" "V" ≠ specValueLine false 25 1 "m" "V" := by
  decide

/-- C10 (amended): for raw value `r ≤ 9999` and `p ≤ 3` decimal places the value line is the
sign character (space, or minus when signed), the four decimal digits of `r` with leading zeros
kept and a decimal point before the last `p` of them when `p > 0`, then the prefix text and the
unit, nothing in between; every frame with the overload bit clear and magnitude at most 9999 is
rendered so from its decoded decimal places, prefix and unit. -/
theorem C10_value_line_four_digits :
    (∀ (p : Nat) (neg : Bool) (r : Nat) (pfx units : String), p ≤ 3 → r ≤ 9999 →
        formatValue p neg r pfx units
          = String.mk (signChar neg :: pointBeforeLast p (fourDigits r)) ++ pfx ++ units)
    ∧ (∀ (show_mode dps : Nat) (f : Frame),
        f.status.val.testBit 0 = false → magnitude f ≤ 9999 →
        (processFrame show_mode dps f).dps ≤ 3
        ∧ (processFrame show_mode dps f).linetmp
          = String.mk (signChar (negated f)
              :: pointBeforeLast (processFrame show_mode dps f).dps (fourDigits (magnitude f)))
            ++ (processFrame show_mode dps f).pfx ++ (processFrame show_mode dps f).units) := by
  refine ⟨fun p neg r pfx units hp hr => formatValue_four_digits p neg r pfx units hp hr, ?_⟩
  intro show_mode dps f ho hr
  have hol : ¬ (f.d BYTE_STATUS &&& STATUS_OL) = 1 := fun hc => by
    rw [(byte_bits f.status).2.2.1 hc] at ho; exact Bool.noConfusion ho
  have hp : (if (decodeSwitch dps f).dps > 3 then 3 else (decodeSwitch dps f).dps) ≤ 3 := by
    split <;> omega
  simp only [processFrame, hol, if_false]
  exact ⟨hp, formatValue_four_digits _ _ _ _ _ hp hr⟩

/-- Witness for C10: raw value 25 with two decimal places, signed, prefix `k`, unit `Hz`, and
the frame `frameNegative`. -/
theorem C10_value_line_four_digits_witness :
    formatValue 2 true 25 "k" "Hz" = "-00.25kHz"
    ∧ (processFrame 1 0 frameNegative).linetmp = "-002.5mV" :=
  ⟨(C10_value_line_four_digits.1 2 true 25 "k" "Hz" (by decide) (by decide)).trans
      (by decide),
   ((C10_value_line_four_digits.2 1 0 frameNegative (by decide) (by decide)).2).trans
      (by decide)⟩

/-! ## Lemmas on the read loop and on the stored decimal places -/

theorem ReadSpec_stop (reads : ByteStream) (s r : ReadState) (tc : Byte)
    (hic : s.i = s.calls) (hlt : s.i < SSIZE)
    (hd : r.d = Function.update s.d s.i tc) (hc : r.calls = s.calls + 1)
    (hw : r.writes = s.i :: s.writes) (hi : r.i ≤ s.i + 1)
    (htc : ∀ b, reads s.calls = some b → tc = b)
    (hstop : (∃ b, reads s.calls = some b ∧ b.val = 10) ∨ reads s.calls = none
      ∨ (s.i + 1 = SSIZE ∧ r.i = SSIZE)) :
    ReadSpec reads s r where
  calls_gt := by omega
  calls_le := by omega
  index_le := by omega
  written := by
    intro w hw2
    rw [hw, List.mem_cons] at hw2
    rcases hw2 with rfl | h
    · exact Or.inr hlt
    · exact Or.inl h
  written_length := by
    rw [hw, hc, List.length_cons]
    omega
  before := by
    intro k h1 h2
    omega
  last := by
    rw [hc, Nat.add_sub_cancel]
    rcases hstop with h | h | h
    · exact Or.inl h
    · exact Or.inr (Or.inl h)
    · exact Or.inr (Or.inr ⟨by omega, h.2⟩)
  keep := by
    intro j hj
    rw [hd, Function.update_noteq (by omega)]
  stored := by
    intro j b h1 h2 h3
    have hj : j = s.i := by omega
    subst hj
    rw [hic] at h3
    rw [hd, Function.update_same, htc b h3]

theorem ReadSpec_step (reads : ByteStream) (s s2 r : ReadState) (b : Byte)
    (hic : s.i = s.calls) (hlt : s.i < SSIZE)
    (hb : reads s.calls = some b) (hb10 : b.val ≠ 10)
    (hd : s2.d = Function.update s.d s.i b) (hi : s2.i = s.i + 1)
    (hc : s2.calls = s.calls + 1) (hw : s2.writes = s.i :: s.writes)
    (h : ReadSpec reads s2 r) :
    ReadSpec reads s r where
  calls_gt := by have := h.calls_gt; omega
  calls_le := h.calls_le
  index_le := h.index_le
  written := by
    intro w hw2
    rcases h.written w hw2 with h1 | h1
    · rw [hw, List.mem_cons] at h1
      rcases h1 with rfl | h1
      · exact Or.inr hlt
      · exact Or.inl h1
    · exact Or.inr h1
  written_length := by
    have h1 := h.written_length
    have h2 := h.calls_gt
    rw [hw, List.length_cons] at h1
    omega
  before := by
    intro k h1 h2
    by_cases hk : k = s.calls
    · subst hk
      exact ⟨b, hb, hb10⟩
    · exact h.before k (by omega) h2
  last := h.last
  keep := by
    intro j hj
    rw [h.keep j (by omega), hd, Function.update_noteq (by omega)]
  stored := by
    intro j c h1 h2 h3
    by_cases hj : j = s.i
    · rw [hj, hic, hb] at h3
      rw [hj, h.keep s.i (by omega), hd, Function.update_same]
      exact Option.some.inj h3
    · exact h.stored j c (by omega) h2 h3

theorem readLoop_spec (reads : ByteStream) :
    ∀ (fuel : Nat) (s : ReadState), s.i = s.calls → s.i < SSIZE → SSIZE - s.i ≤ fuel →
      ∃ r, readLoop reads fuel s = some r ∧ ReadSpec reads s r := by
  intro fuel
  induction fuel with
  | zero =>
    intro s _ h1 h2
    omega
  | succ fuel ih =>
    intro s hic hlt hfuel
    rw [readLoop]
    cases hr : reads s.calls with
    | none =>
      simp only []
      have hstop : (∃ b, reads s.calls = some b ∧ b.val = 10) ∨ reads s.calls = none
          ∨ (s.i + 1 = SSIZE ∧ s.i + 1 = SSIZE) := Or.inr (Or.inl hr)
      have htc : ∀ b, reads s.calls = some b → s.temp_char = b := by
        intro b hb
        rw [hr] at hb
        exact Option.noConfusion hb
      by_cases h10 : s.temp_char.val = 10
      · rw [if_pos h10]
        exact ⟨_, rfl, ReadSpec_stop reads s _ s.temp_char hic hlt rfl rfl rfl
          (Nat.le_succ _) htc (Or.inr (Or.inl hr))⟩
      · rw [if_neg h10, if_neg (by omega)]
        exact ⟨_, rfl, ReadSpec_stop reads s _ s.temp_char hic hlt rfl rfl rfl
          (Nat.le_refl _) htc (Or.inr (Or.inl hr))⟩
    | some b =>
      simp only []
      have htc : ∀ c, reads s.calls = some c → b = c := by
        intro c hc
        rw [hr] at hc
        exact Option.some.inj hc
      by_cases h10 : b.val = 10
      · rw [if_pos h10]
        exact ⟨_, rfl, ReadSpec_stop reads s _ b hic hlt rfl rfl rfl
          (Nat.le_succ _) htc (Or.inl ⟨b, hr, h10⟩)⟩
      · rw [if_neg h10]
        by_cases hfull : s.i + 1 < SSIZE
        · rw [if_pos ⟨by decide, hfull⟩]
          obtain ⟨r, hr1, hr2⟩ := ih
            { d := Function.update s.d s.i b, temp_char := b, i := s.i + 1,
              end_of_frame_received := s.end_of_frame_received, calls := s.calls + 1,
              writes := s.i :: s.writes }
            (by simp only [hic]) hfull (by simp only []; omega)
          exact ⟨r, hr1, ReadSpec_step reads s _ r b hic hlt hr h10 rfl rfl rfl rfl hr2⟩
        · rw [if_neg (fun h => hfull h.2)]
          exact ⟨_, rfl, ReadSpec_stop reads s _ b hic hlt rfl rfl rfl
            (Nat.le_refl _) htc (Or.inr (Or.inr ⟨by omega, by simp only []; omega⟩))⟩

theorem readLoop_fuel (reads : ByteStream) :
    ∀ (fuel : Nat) (s r : ReadState), readLoop reads fuel s = some r →
      ∀ extra, readLoop reads (fuel + extra) s = some r := by
  intro fuel
  induction fuel with
  | zero =>
    intro s r h
    rw [readLoop] at h
    exact Option.noConfusion h
  | succ fuel ih =>
    intro s r h extra
    rw [Nat.add_right_comm]
    simp only [readLoop] at h ⊢
    split_ifs at h ⊢
    · exact h
    · exact ih _ _ h extra
    · exact h

theorem readFrame_spec (reads : ByteStream) (d : Nat → Byte) (temp_char : Byte) :
    ∃ r, (∀ fuel, SSIZE ≤ fuel → readFrame reads fuel d temp_char = some r)
      ∧ ReadSpec reads
          { d := d, temp_char := temp_char, i := 0, end_of_frame_received := false,
            calls := 0, writes := [] } r := by
  obtain ⟨r, h1, h2⟩ := readLoop_spec reads SSIZE
    { d := d, temp_char := temp_char, i := 0, end_of_frame_received := false,
      calls := 0, writes := [] } rfl (show 0 < SSIZE by decide) (Nat.le_refl _)
  refine ⟨r, fun fuel hf => ?_, h2⟩
  obtain ⟨extra, rfl⟩ : ∃ e, fuel = SSIZE + e := ⟨fuel - SSIZE, by omega⟩
  exact readLoop_fuel reads SSIZE _ r h1 extra

theorem ite_dps_le (c : Prop) [Decidable c] (a b : Decode) (ha : a.dps ≤ 3) (hb : b.dps ≤ 3) :
    (if c then a else b).dps ≤ 3 := by
  split <;> assumption

theorem decodeSwitch_dps_le (dps : Nat) (f : Frame) (h : dps ≤ 3) :
    (decodeSwitch dps f).dps ≤ 3 := by
  unfold decodeSwitch
  dsimp only
  generalize f.d BYTE_RANGE &&& 15 = n
  rcases n with _ | _ | _ | _ | _ | _ | _ | _ | n
  all_goals repeat' first
    | apply ite_dps_le
    | exact h
    | exact Nat.le_refl 3
    | exact Nat.zero_le 3
    | exact (by decide : 1 ≤ 3)
    | exact (by decide : 2 ≤ 3)

theorem step_dps_le (show_mode : Nat) (st : Display) (f : Frame) (h : st.dps ≤ 3) :
    (step show_mode st f).dps ≤ 3 := by
  have h1 := decodeSwitch_dps_le st.dps f h
  simp only [step, processFrame]
  split_ifs <;> simp only [] <;> omega

theorem runFrames_dps_le (show_mode : Nat) (fs : List Frame) :
    ∀ st : Display, st.dps ≤ 3 → (runFrames show_mode st fs).dps ≤ 3 := by
  induction fs with
  | nil => intro st h; exact h
  | cons f fs ih =>
    intro st h
    exact ih (step show_mode st f) (step_dps_le show_mode st f h)

theorem formatValue_branch (p : Nat) (neg : Bool) (mag : Nat) (pfx units : String)
    (hp : p ≤ 3) :
    formatValue p neg mag pfx units
      = String.mk (printfFixed (if p = 0 then 5 else 6) p neg mag) ++ pfx ++ units := by
  interval_cases p <;> rfl

theorem readLoop_beyond (reads : ByteStream) :
    ∀ (fuel : Nat) (s r : ReadState), readLoop reads fuel s = some r → s.i ≤ s.calls →
      s.calls < r.calls ∧ ∀ j, r.calls ≤ j → r.d j = s.d j := by
  intro fuel
  induction fuel with
  | zero =>
    intro s r h
    rw [readLoop] at h
    exact Option.noConfusion h
  | succ fuel ih =>
    intro s r h hic
    simp only [readLoop] at h
    split_ifs at h
    · have hr := Option.some.inj h
      subst hr
      refine ⟨Nat.lt_succ_self _, fun j hj => ?_⟩
      simp only [] at hj
      exact Function.update_noteq (by omega) _ _
    · obtain ⟨h1, h2⟩ := ih _ r h (by simp only []; omega)
      simp only [] at h1 h2
      refine ⟨by omega, fun j hj => ?_⟩
      rw [h2 j hj]
      exact Function.update_noteq (by omega) _ _
    · have hr := Option.some.inj h
      subst hr
      refine ⟨Nat.lt_succ_self _, fun j hj => ?_⟩
      simp only [] at hj
      exact Function.update_noteq (by omega) _ _

/-! ## Claims on the read loop -/

/-- C11 (as stated, refuted): the stream `streamOverrun` delivers ten bytes other than line feed
and then the terminator, and the pass decodes it and publishes the value line of its first nine
bytes; and after a well-formed frame, the stream `streamShort` with three bytes before the
terminator is decoded too, the value line mixing its bytes with those left in the buffer. -/
theorem C11_overrun_and_short_reads_are_decoded :
    (∀ k, k < 10 → ∃ b, streamOverrun k = some b ∧ b.val ≠ 10)
    ∧ (∃ b, streamOverrun 10 = some b ∧ b.val = 10)
    ∧ (pass 1 streamOverrun Machine.init).map (fun m => m.display.line1)
        = some (padRight40 " 002.5mV")
    ∧ (∀ k, k < 3 → ∃ b, streamShort k = some b ∧ b.val ≠ 10)
    ∧ (∃ b, streamShort 3 = some b ∧ b.val = 10)
    ∧ ((pass 1 streamVolts25 Machine.init).bind (pass 1 streamShort)).map
        (fun m => m.display.line1) = some (padRight40 " 10.005 V") := by
  decide

/-- C11 (amended): every read that ends at a line-feed terminator is decoded and formatted,
whatever number `n` of bytes came before the terminator, with no overrun error and no test of
the byte count.  The frame decoded is `d[0..8]` of the buffer as the read left it: the bytes of
this read and the line feed sit at the positions of their arrival, later positions keep what
they held before the read.  So when the first nine bytes are not line feeds (nine before the
terminator, or ten or more) the frame decoded is the one made of those nine bytes. -/
theorem C11_terminated_reads_are_decoded (show_mode : Nat) (reads : ByteStream) (m : Machine)
    (n : Nat) (hn : n < SSIZE)
    (hpay : ∀ k, k < n → ∃ b, reads k = some b ∧ b.val ≠ 10)
    (hterm : ∃ b, reads n = some b ∧ b.val = 10) :
    ∃ m2, pass show_mode reads m = some m2
      ∧ m2.display = step show_mode m.display (frameOfBuffer m2.d)
      ∧ (∀ k, k ≤ n → reads k = some (m2.d k))
      ∧ (∀ j, n < j → m2.d j = m.d j)
      ∧ (∀ f : Frame, (∀ k, k < 9 → ∃ b, reads k = some b ∧ b.val = f.d k ∧ b.val ≠ 10) →
          m2.display = step show_mode m.display f) := by
  obtain ⟨r, h1, h2⟩ := readFrame_spec reads m.d m.temp_char
  have hloop := h1 SSIZE (Nat.le_refl _)
  have hp : pass show_mode reads m
      = some ⟨r.d, r.temp_char, step show_mode m.display (frameOfBuffer r.d)⟩ := by
    simp only [pass, hloop]
  have hpos : 0 < r.calls := h2.calls_gt
  have hle : r.calls ≤ n + 1 := by
    by_contra hc
    obtain ⟨b, hb1, hb2⟩ := h2.before n (Nat.zero_le _) (by omega)
    obtain ⟨c, hc1, hc2⟩ := hterm
    rw [hb1] at hc1
    rw [Option.some.inj hc1] at hb2
    exact hb2 hc2
  have hge : n + 1 ≤ r.calls := by
    by_contra hc
    obtain ⟨b, hb1, hb3⟩ := hpay (r.calls - 1) (by omega)
    rcases h2.last with ⟨c, hc1, hc2⟩ | hnone | ⟨hfull, _⟩
    · rw [hb1] at hc1
      rw [Option.some.inj hc1] at hb3
      exact hb3 hc2
    · rw [hb1] at hnone
      exact Option.noConfusion hnone
    · omega
  have hcalls : r.calls = n + 1 := Nat.le_antisymm hle hge
  have hstored : ∀ k, k ≤ n → reads k = some (r.d k) := by
    intro k hk
    have hex : ∃ b, reads k = some b := by
      by_cases hkn : k = n
      · obtain ⟨b, hb, _⟩ := hterm
        exact ⟨b, by rw [hkn]; exact hb⟩
      · obtain ⟨b, hb, _⟩ := hpay k (by omega)
        exact ⟨b, hb⟩
    obtain ⟨b, hb⟩ := hex
    rw [h2.stored k b (Nat.zero_le _) (by omega) hb]
    exact hb
  have hbeyond : ∀ j, n < j → r.d j = m.d j := by
    intro j hj
    exact (readLoop_beyond reads SSIZE _ r hloop (Nat.le_refl _)).2 j (by omega)
  refine ⟨_, hp, rfl, hstored, hbeyond, fun f hf => ?_⟩
  have hn9 : 9 ≤ n := by
    by_contra hc
    obtain ⟨b, hb1, _, hb3⟩ := hf n (by omega)
    obtain ⟨c, hc1, hc2⟩ := hterm
    rw [hb1] at hc1
    rw [Option.some.inj hc1] at hb3
    exact hb3 hc2
  have hd : ∀ k, k < 9 → (r.d k).val = f.d k := by
    intro k hk
    obtain ⟨b, hb1, hb2, _⟩ := hf k hk
    have := hstored k (by omega)
    rw [hb1] at this
    rw [← Option.some.inj this, hb2]
  have hframe : frameOfBuffer r.d = f := by
    cases f
    simp only [frameOfBuffer, Frame.mk.injEq]
    exact ⟨Fin.ext (hd 0 (by decide)), Fin.ext (hd 1 (by decide)), Fin.ext (hd 2 (by decide)),
      Fin.ext (hd 3 (by decide)), Fin.ext (hd 4 (by decide)), Fin.ext (hd 5 (by decide)),
      Fin.ext (hd 6 (by decide)), Fin.ext (hd 7 (by decide)), Fin.ext (hd 8 (by decide))⟩
  simp only [hframe]

/-- Witness for C11: `streamOverrun` has ten bytes before its terminator and begins with the
nine bytes of `frameVolts25`; `streamShort` has three bytes before its terminator, which lands
in `d[3]`, and leaves `d[4]` as it was. -/
theorem C11_terminated_reads_are_decoded_witness :
    (∃ m2, pass 1 streamOverrun Machine.init = some m2
      ∧ m2.display = step 1 Display.init frameVolts25)
    ∧ (∃ m2, pass 1 streamShort Machine.init = some m2
      ∧ m2.display = step 1 Display.init (frameOfBuffer m2.d)
      ∧ streamShort 3 = some (m2.d 3) ∧ m2.d 4 = 0) :=
  ⟨match C11_terminated_reads_are_decoded 1 streamOverrun Machine.init 10
      (by decide) (by decide) (by decide) with
    | ⟨m2, h1, _, _, _, h5⟩ => ⟨m2, h1, h5 frameVolts25 (by decide)⟩,
   match C11_terminated_reads_are_decoded 1 streamShort Machine.init 3
      (by decide) (by decide) (by decide) with
    | ⟨m2, h1, h2, h3, h4, _⟩ => ⟨m2, h1, h2, h3 3 (Nat.le_refl _), h4 4 (by decide)⟩⟩

/-- C12: from program start and after any sequence of frames, the stored decimal places are at
most 3, the decode switch leaves them at most 3 for any further frame, and for a frame with
the overload bit clear the formatter runs with decimal places `p` in 0..3 and takes the branch
of `p`: the value line is the output of the format string for `p` followed by prefix and
unit. -/
theorem C12_decimal_places_in_range (show_mode : Nat) (fs : List Frame) (f : Frame) :
    (runFrames show_mode Display.init fs).dps ≤ 3
    ∧ (decodeSwitch (runFrames show_mode Display.init fs).dps f).dps ≤ 3
    ∧ (f.status.val.testBit 0 = false →
        (processFrame show_mode (runFrames show_mode Display.init fs).dps f).dps ≤ 3
        ∧ (processFrame show_mode (runFrames show_mode Display.init fs).dps f).linetmp
          = String.mk (printfFixed
              (if (processFrame show_mode (runFrames show_mode Display.init fs).dps f).dps = 0
                then 5 else 6)
              (processFrame show_mode (runFrames show_mode Display.init fs).dps f).dps
              (negated f) (magnitude f))
            ++ (processFrame show_mode (runFrames show_mode Display.init fs).dps f).pfx
            ++ (processFrame show_mode (runFrames show_mode Display.init fs).dps f).units) := by
  have h0 : (runFrames show_mode Display.init fs).dps ≤ 3 :=
    runFrames_dps_le show_mode fs Display.init (by decide)
  have h1 := decodeSwitch_dps_le _ f h0
  refine ⟨h0, h1, fun ho => ?_⟩
  have hol : ¬ (f.d BYTE_STATUS &&& STATUS_OL) = 1 := fun hc => by
    rw [(byte_bits f.status).2.2.1 hc] at ho; exact Bool.noConfusion ho
  have hp : (if (decodeSwitch (runFrames show_mode Display.init fs).dps f).dps > 3 then 3
      else (decodeSwitch (runFrames show_mode Display.init fs).dps f).dps) ≤ 3 := by
    split <;> omega
  simp only [processFrame, hol, if_false]
  exact ⟨hp, formatValue_branch _ _ _ _ _ hp⟩

/-- Witness for C12: after `frameDiode` and `frameVolts4`, the frame `frameNegative` is
formatted with one decimal place. -/
theorem C12_decimal_places_in_range_witness :
    (processFrame 1 (runFrames 1 Display.init [frameDiode, frameVolts4]).dps frameNegative).dps
      ≤ 3 :=
  ((C12_decimal_places_in_range 1 [frameDiode, frameVolts4] frameNegative).2.2 (by decide)).1

/-- C13: for every byte stream and every initial content of the buffer, the read loop stops
(1024 units of fuel, or more, give the same final state); it makes between 1 and 1024
single-byte reads and one buffer write per read, every written index is below 1024, every read
before the last delivered a byte other than line feed, and the last read delivered a line
feed, or delivered nothing, or was the 1024th. -/
theorem C13_read_loop_bounded (reads : ByteStream) (d : Nat → Byte) (temp_char : Byte) :
    ∃ r, (∀ fuel, SSIZE ≤ fuel → readFrame reads fuel d temp_char = some r)
      ∧ 1 ≤ r.calls ∧ r.calls ≤ 1024
      ∧ r.writes.length = r.calls
      ∧ (∀ w ∈ r.writes, w < 1024)
      ∧ (∀ k, k + 1 < r.calls → ∃ b, reads k = some b ∧ b.val ≠ 10)
      ∧ ((∃ b, reads (r.calls - 1) = some b ∧ b.val = 10) ∨ reads (r.calls - 1) = none
          ∨ (r.calls = 1024 ∧ r.i = 1024)) := by
  obtain ⟨r, h1, h2⟩ := readFrame_spec reads d temp_char
  refine ⟨r, h1, h2.calls_gt, h2.calls_le, ?_, ?_, ?_, h2.last⟩
  · have := h2.written_length
    simpa using this
  · intro w hw
    rcases h2.written w hw with h | h
    · exact absurd h (List.not_mem_nil w)
    · exact h
  · intro k hk
    exact h2.before k (Nat.zero_le _) hk

end BK390A
